import Mathlib

/-!
Verification of the minacalc-rs C API (src/c_code/API.h) against its design
specification.  The repository ships only the header: the engine behind it
(MinaCalc) is declared but its implementation is not part of the sources, so
the pipeline below is modelled from the specification (spec.md §§2-7), while
the data shapes (`NoteInfo`, `Ssr`, `MsdForAllRates`, `CalcHandle`) and the
entry-point signatures follow API.h.  C floats are modelled as rationals and
machine buffers as lists; the mutable calculator context is modelled by
explicit state passing.
-/

namespace MinaCalc

/-- One row of a chart (Models/NoteData/NoteDataStructures.h, referenced from
API.h line 2): a per-column bitmask of sounding notes plus the row's absolute
timestamp.  The C float timestamp is modelled as a rational. -/
structure NoteInfo where
  notes : Nat
  rowTime : ℚ
deriving Repr, DecidableEq

/-- The eight-field skillset profile, API.h lines 11-20. -/
structure Ssr where
  overall : ℚ
  stream : ℚ
  jumpstream : ℚ
  handstream : ℚ
  stamina : ℚ
  jackspeed : ℚ
  chordjack : ℚ
  technical : ℚ
deriving Repr, DecidableEq

/-- The all-zero profile, the degenerate result required by spec §7. -/
def zeroSsr : Ssr := ⟨0, 0, 0, 0, 0, 0, 0, 0⟩

/-- The rate sweep record, API.h lines 22-25: one `Ssr` for each rate from
0.7 to 2.0 inclusive.  The fixed-size C array `Ssr msds[14]` is modelled as a
list whose length is proved to be 14. -/
structure MsdForAllRates where
  msds : List Ssr
deriving Repr, DecidableEq

/-- The opaque calculator context, API.h lines 7-9.  Modelled from the spec:
spec §3/§4.6 describe it as a reusable mutable scratch owner sized to the
largest chart seen; we model the scratch as the buffer of rows written by the
last calculation, with a grow-only arena discipline (`writeScratch`). -/
structure CalcHandle where
  scratch : List NoteInfo
deriving Repr

/-- `create_calc` (API.h line 29): a fresh context with empty scratch. -/
def create_calc : CalcHandle := ⟨[]⟩

/-- Number of active columns of a row below the keycount (spec §3: every note
event's active columns are all `< keycount`; columns at or above the keycount
never sound). -/
def notesInRow (keycount : Nat) (row : NoteInfo) : Nat :=
  (List.range keycount).countP (fun k => row.notes.testBit k)

/-- Timestamps (rescaled by the inverse of the rate, spec §4.1: `t' = t/rate`)
of the rows satisfying a predicate, in chart order. -/
def timesWhere (rate : ℚ) (p : NoteInfo → Bool) (rows : List NoteInfo) : List ℚ :=
  (rows.filter p).map (fun row => row.rowTime / rate)

/-- Inter-onset intervals of a timestamp sequence (spec §4.1): adjacent
differences; fewer than two events produce no intervals. -/
def intervalsOf : List ℚ → List ℚ
  | a :: b :: rest => (b - a) :: intervalsOf (b :: rest)
  | _ => []

/-- Weight of one inter-onset interval: shorter (denser) intervals weigh more,
and every weight is positive and finite.  Modelled from the spec: §4.2 asks
each recognizer for a non-negative scalar that grows with apparent density. -/
def intervalWeight (i : ℚ) : ℚ := 1 / (1 + |i|)

/-- Density score of a timestamp sequence: total interval weight.  Zero when
fewer than two events exist (spec §4.2: charts too short to exhibit a pattern
score zero, never NaN). -/
def flowScore (times : List ℚ) : ℚ := ((intervalsOf times).map intervalWeight).sum

/-- Weight of an interval irregularity: zero for perfectly regular spacing,
approaching one for wildly varying spacing.  Modelled from the spec: §4.2
technical "rewards variance rather than regularity". -/
def varWeight (d : ℚ) : ℚ := |d| / (1 + |d|)

/-- Modelled from the spec: stream recognizer (§4.2) — single-note rows at
even spacing; scores the density of rows carrying exactly one note. -/
def streamScore (rate : ℚ) (keycount : Nat) (rows : List NoteInfo) : ℚ :=
  flowScore (timesWhere rate (fun row => notesInRow keycount row == 1) rows)

/-- Modelled from the spec: jumpstream recognizer (§4.2) — streams interleaved
with two-note simultaneous chords; scores the density of two-note rows. -/
def jumpstreamScore (rate : ℚ) (keycount : Nat) (rows : List NoteInfo) : ℚ :=
  flowScore (timesWhere rate (fun row => notesInRow keycount row == 2) rows)

/-- Modelled from the spec: handstream recognizer (§4.2) — streams interleaved
with three-or-more-note chords; scores the density of such rows. -/
def handstreamScore (rate : ℚ) (keycount : Nat) (rows : List NoteInfo) : ℚ :=
  flowScore (timesWhere rate (fun row => 3 ≤ notesInRow keycount row) rows)

/-- Modelled from the spec: jackspeed recognizer (§4.2) — same-column
immediate repeats; sums the per-column density over all valid columns. -/
def jackspeedScore (rate : ℚ) (keycount : Nat) (rows : List NoteInfo) : ℚ :=
  ((List.range keycount).map
    (fun k => flowScore (timesWhere rate (fun row => row.notes.testBit k) rows))).sum

/-- Modelled from the spec: chordjack recognizer (§4.2) — same-column repeats
occurring inside chords; per-column density restricted to chord rows. -/
def chordjackScore (rate : ℚ) (keycount : Nat) (rows : List NoteInfo) : ℚ :=
  ((List.range keycount).map
    (fun k => flowScore (timesWhere rate
      (fun row => row.notes.testBit k && 2 ≤ notesInRow keycount row) rows))).sum

/-- Modelled from the spec: stamina recognizer (§4.2) — a chart-wide scalar
over the base density signal of every sounding row, so longer charts
accumulate a higher score than short charts of identical local density. -/
def staminaScore (rate : ℚ) (keycount : Nat) (rows : List NoteInfo) : ℚ :=
  flowScore (timesWhere rate (fun row => 1 ≤ notesInRow keycount row) rows)

/-- Modelled from the spec: technical recognizer (§4.2) — irregular,
non-repeating interval patterns; scores the second differences (variations of
consecutive inter-onset intervals) of the sounding rows. -/
def technicalScore (rate : ℚ) (keycount : Nat) (rows : List NoteInfo) : ℚ :=
  ((intervalsOf (intervalsOf
    (timesWhere rate (fun row => 1 ≤ notesInRow keycount row) rows))).map varWeight).sum

/-- Modelled from the spec: aggregator (§4.3) — `overall` tracks the dominant
skillset; a deterministic, monotone combination that is zero exactly when all
seven scalars are zero (given they are non-negative). -/
def aggregateOverall (st js hs sa ja cj te : ℚ) : ℚ :=
  max st (max js (max hs (max sa (max ja (max cj te)))))

/-- Modelled from the spec: the supported rate domain is [0.7, 2.0] (§3);
out-of-domain rates are clamped at the boundary (§7). -/
def clampRate (rate : ℚ) : ℚ := max (7 / 10) (min 2 rate)

/-- Modelled from the spec: one full uncapped pipeline pass (§2 data flow):
timing normalizer, the seven recognizers, then the aggregator. -/
def rawProfile (rows : List NoteInfo) (keycount : Nat) (rate : ℚ) : Ssr :=
  let st := streamScore rate keycount rows
  let js := jumpstreamScore rate keycount rows
  let hs := handstreamScore rate keycount rows
  let sa := staminaScore rate keycount rows
  let ja := jackspeedScore rate keycount rows
  let cj := chordjackScore rate keycount rows
  let te := technicalScore rate keycount rows
  ⟨aggregateOverall st js hs sa ja cj te, st, js, hs, sa, ja, cj, te⟩

/-- Fixed iteration budget of the goal-capping search.  Modelled from the
spec: §4.5 requires the search to terminate in a bounded number of
iterations for all inputs. -/
def capIterations : Nat := 20

/-- Modelled from the spec: the difficulty-to-expected-accuracy response
model (§4.5) — the expected accuracy under ideal play of a player of
effective difficulty `d` on a chart of raw difficulty `r`, monotone in `d`
and normalised so that accuracy 1 is reached at `d = r`. -/
def accModel (d r : ℚ) : ℚ := if r = 0 then 1 else d / r

/-- Modelled from the spec: the monotone bisection refinement of the
goal-capping search (§4.5): keeps a bracket `[lo, hi]` around the difficulty
whose expected accuracy equals the score goal `g`, halving it each step and
returning the lower end when the fuel runs out. -/
def capSearchGo (g r : ℚ) : Nat → ℚ → ℚ → ℚ
  | 0, lo, _ => lo
  | n + 1, lo, hi =>
    let mid := (lo + hi) / 2
    if accModel mid r ≤ g then capSearchGo g r n mid hi else capSearchGo g r n lo mid

/-- Modelled from the spec: capping one field (§4.5) — searches `[0, r]` for
the difficulty whose expected accuracy equals the score goal, so the capped
value is clamped to the realistic range: never negative, never above raw. -/
def capField (g r : ℚ) : ℚ := capSearchGo g r capIterations 0 r

/-- Modelled from the spec: capped (SSR) normalisation of a profile (§4.5) —
each of the eight fields is adjusted independently by the search. -/
def capProfile (g : ℚ) (p : Ssr) : Ssr :=
  ⟨capField g p.overall, capField g p.stream, capField g p.jumpstream,
   capField g p.handstream, capField g p.stamina, capField g p.jackspeed,
   capField g p.chordjack, capField g p.technical⟩

/-- The default score goal used by the sweep in capped mode (API.h line 39:
"usually 0.93"; spec §6: all-rates capped mode uses an implicit default). -/
def defaultScoreGoal : ℚ := 93 / 100

/-- Modelled from the spec: one full pipeline pass at a given rate and mode
(§2): clamp the rate to the supported domain, run the uncapped pipeline, and
in capped mode (`cap ≠ 0`, API.h line 38: "1 for SSR, 0 for MSD") apply the
goal-capping search. -/
def profileAt (rows : List NoteInfo) (rate goal : ℚ) (keycount : Nat) (cap : Int) : Ssr :=
  let p := rawProfile rows keycount (clampRate rate)
  if cap = 0 then p else capProfile goal p

/-- Modelled from the spec: the grow-only scratch arena (§4.4/§9): a new
chart is written over the front of the buffer and any longer stale tail from
a previous chart is kept as spare capacity, so the buffer never shrinks. -/
def writeScratch (buf rows : List NoteInfo) : List NoteInfo :=
  rows ++ buf.drop rows.length

/-- `calc_at_rate` (API.h line 40).  Modelled from the spec: the call writes
the chart into the context's scratch, runs the pipeline on the freshly
written prefix of the scratch buffer, and returns the profile together with
the updated context and the caller's note buffer (spec §6: notes are an
immutable sequence, so the buffer comes back unchanged). -/
def calc_at_rate (ctx : CalcHandle) (rows : List NoteInfo) (music_rate score_goal : ℚ)
    (keycount : Nat) (cap : Int) : Ssr × CalcHandle × List NoteInfo :=
  let buf := writeScratch ctx.scratch rows
  (profileAt (buf.take rows.length) music_rate score_goal keycount cap, ⟨buf⟩, rows)

/-- Rate of the i-th sweep entry: 0.7 + 0.1·i (API.h line 23). -/
def rateOfIndex (i : Nat) : ℚ := 7 / 10 + i / 10

/-- The 14 fixed sweep rates, 0.7 through 2.0 inclusive, ascending. -/
def sweepRates : List ℚ := (List.range 14).map rateOfIndex

/-- Modelled from the spec: the rate sweep driver loop (§4.4/§2): one pass
per fixed multiplier in ascending order, reusing the one mutable context; the
caller's note buffer (immutable, spec §6) is handed to every pass. -/
def sweepGo (score_goal : ℚ) (keycount : Nat) (cap : Int) :
    List ℚ → CalcHandle → List NoteInfo → List Ssr × CalcHandle
  | [], ctx, _ => ([], ctx)
  | r :: rs, ctx, rows =>
    let step := calc_at_rate ctx rows r score_goal keycount cap
    let rest := sweepGo score_goal keycount cap rs step.2.1 rows
    (step.1 :: rest.1, rest.2)

/-- `calc_all_rates` (API.h line 35): the full sweep over the 14 fixed rates,
using the default score goal in capped mode; the note buffer comes back to
the caller unchanged (API.h declares it `const`). -/
def calc_all_rates (ctx : CalcHandle) (rows : List NoteInfo) (keycount : Nat)
    (cap : Int) : MsdForAllRates × CalcHandle × List NoteInfo :=
  let s := sweepGo defaultScoreGoal keycount cap sweepRates ctx rows
  (⟨s.1⟩, s.2, rows)

/-- `calc_msd` (API.h line 43): legacy alias, `calc_all_rates` with cap 0. -/
def calc_msd (ctx : CalcHandle) (rows : List NoteInfo) (keycount : Nat) :
    MsdForAllRates × CalcHandle × List NoteInfo :=
  calc_all_rates ctx rows keycount 0

/-- `calc_ssr` (API.h line 44): legacy alias, `calc_at_rate` with cap 1. -/
def calc_ssr (ctx : CalcHandle) (rows : List NoteInfo) (music_rate score_goal : ℚ)
    (keycount : Nat) : Ssr × CalcHandle × List NoteInfo :=
  calc_at_rate ctx rows music_rate score_goal keycount 1

/-- Field-wise order on profiles: every one of the eight fields is ≤ the
corresponding field of the other profile. -/
def ssrLe (p q : Ssr) : Prop :=
  p.overall ≤ q.overall ∧ p.stream ≤ q.stream ∧ p.jumpstream ≤ q.jumpstream ∧
  p.handstream ≤ q.handstream ∧ p.stamina ≤ q.stamina ∧ p.jackspeed ≤ q.jackspeed ∧
  p.chordjack ≤ q.chordjack ∧ p.technical ≤ q.technical

/-- All eight fields of a profile are non-negative. -/
def ssrNonneg (p : Ssr) : Prop :=
  0 ≤ p.overall ∧ 0 ≤ p.stream ∧ 0 ≤ p.jumpstream ∧ 0 ≤ p.handstream ∧
  0 ≤ p.stamina ∧ 0 ≤ p.jackspeed ∧ 0 ≤ p.chordjack ∧ 0 ≤ p.technical


/-! ### Basic unfolding lemmas -/

/-- The freshly written prefix of the scratch buffer is exactly the chart. -/
theorem take_writeScratch (buf rows : List NoteInfo) :
    (writeScratch buf rows).take rows.length = rows := by
  simp [writeScratch, List.take_left rows (buf.drop rows.length)]

/-- The profile returned by `calc_at_rate` is the pure pipeline result on the
caller's chart: the scratch prefix read back is the chart just written. -/
theorem calc_at_rate_fst (ctx : CalcHandle) (rows : List NoteInfo) (rate goal : ℚ)
    (keycount : Nat) (cap : Int) :
    (calc_at_rate ctx rows rate goal keycount cap).1 = profileAt rows rate goal keycount cap := by
  simp [calc_at_rate, take_writeScratch]

/-- `calc_at_rate` hands the note buffer back unchanged. -/
theorem calc_at_rate_rows_eq (ctx : CalcHandle) (rows : List NoteInfo) (rate goal : ℚ)
    (keycount : Nat) (cap : Int) :
    (calc_at_rate ctx rows rate goal keycount cap).2.2 = rows := rfl

/-- The sweep loop produces one pure pipeline result per rate, in order,
whatever the starting context. -/
theorem sweepGo_fst (goal : ℚ) (keycount : Nat) (cap : Int) (rs : List ℚ)
    (ctx : CalcHandle) (rows : List NoteInfo) :
    (sweepGo goal keycount cap rs ctx rows).1 =
      rs.map (fun r => profileAt rows r goal keycount cap) := by
  induction rs generalizing ctx with
  | nil => simp [sweepGo]
  | cons r rs ih =>
    simp only [sweepGo, List.map_cons]
    rw [calc_at_rate_fst, ih]

/-- The sweep result of `calc_all_rates`, entry by entry. -/
theorem calc_all_rates_msds (ctx : CalcHandle) (rows : List NoteInfo) (keycount : Nat)
    (cap : Int) :
    (calc_all_rates ctx rows keycount cap).1.msds =
      sweepRates.map (fun r => profileAt rows r defaultScoreGoal keycount cap) := by
  have h := sweepGo_fst defaultScoreGoal keycount cap sweepRates ctx rows
  simp only [calc_all_rates]
  exact h

/-- `calc_all_rates` hands the note buffer back unchanged. -/
theorem calc_all_rates_rows_eq (ctx : CalcHandle) (rows : List NoteInfo) (keycount : Nat)
    (cap : Int) :
    (calc_all_rates ctx rows keycount cap).2.2 = rows := rfl

/-! ### Non-negativity of the recognizers and the raw profile -/

theorem intervalWeight_nonneg (i : ℚ) : 0 ≤ intervalWeight i :=
  div_nonneg (by norm_num) (by positivity)

theorem varWeight_nonneg (d : ℚ) : 0 ≤ varWeight d :=
  div_nonneg (abs_nonneg d) (by positivity)

theorem flowScore_nonneg (times : List ℚ) : 0 ≤ flowScore times := by
  refine List.sum_nonneg ?_
  intro x hx
  obtain ⟨i, _, rfl⟩ := List.mem_map.mp hx
  exact intervalWeight_nonneg i

theorem rawProfile_nonneg (rows : List NoteInfo) (keycount : Nat) (rate : ℚ) :
    ssrNonneg (rawProfile rows keycount rate) := by
  have hsum : ∀ (f : Nat → ℚ), (∀ k, 0 ≤ f k) → 0 ≤ ((List.range keycount).map f).sum := by
    intro f hf
    refine List.sum_nonneg ?_
    intro x hx
    obtain ⟨k, _, rfl⟩ := List.mem_map.mp hx
    exact hf k
  have hst := flowScore_nonneg (timesWhere rate (fun row => notesInRow keycount row == 1) rows)
  have hja : 0 ≤ jackspeedScore rate keycount rows :=
    hsum _ (fun k => flowScore_nonneg _)
  have hcj : 0 ≤ chordjackScore rate keycount rows :=
    hsum _ (fun k => flowScore_nonneg _)
  have hte : 0 ≤ technicalScore rate keycount rows := by
    refine List.sum_nonneg ?_
    intro x hx
    obtain ⟨d, _, rfl⟩ := List.mem_map.mp hx
    exact varWeight_nonneg d
  refine ⟨?_, hst, flowScore_nonneg _, flowScore_nonneg _, flowScore_nonneg _, hja, hcj, hte⟩
  exact le_trans hst (le_max_left _ _)

/-! ### The goal-capping search -/

/-- The search never leaves its initial bracket. -/
theorem capSearchGo_between (g r : ℚ) (n : Nat) :
    ∀ lo hi : ℚ, lo ≤ hi →
      lo ≤ capSearchGo g r n lo hi ∧ capSearchGo g r n lo hi ≤ hi := by
  induction n with
  | zero => intro lo hi h; exact ⟨le_refl lo, h⟩
  | succ n ih =>
    intro lo hi h
    have hm1 : lo ≤ (lo + hi) / 2 := by linarith
    have hm2 : (lo + hi) / 2 ≤ hi := by linarith
    simp only [capSearchGo]
    split
    · exact ⟨le_trans hm1 (ih _ _ hm2).1, (ih _ _ hm2).2⟩
    · exact ⟨(ih _ _ hm1).1, le_trans (ih _ _ hm1).2 hm2⟩

/-- A degenerate bracket is a fixed point of the search. -/
theorem capSearchGo_self (g r a : ℚ) (n : Nat) : capSearchGo g r n a a = a := by
  induction n with
  | zero => rfl
  | succ n ih =>
    have hm : (a + a) / 2 = a := by ring
    simp only [capSearchGo, hm]
    split <;> exact ih

/-- Capping a zero raw value yields zero. -/
theorem capField_zero (g : ℚ) : capField g 0 = 0 :=
  capSearchGo_self g 0 0 capIterations

/-- The capped value of a non-negative raw value stays in `[0, raw]`. -/
theorem capField_between (g r : ℚ) (hr : 0 ≤ r) :
    0 ≤ capField g r ∧ capField g r ≤ r :=
  capSearchGo_between g r capIterations 0 r hr

/-- The search result is monotone in the score goal. -/
theorem capSearchGo_mono_goal (r : ℚ) {g g' : ℚ} (hg : g ≤ g') (n : Nat) :
    ∀ lo hi : ℚ, lo ≤ hi →
      capSearchGo g r n lo hi ≤ capSearchGo g' r n lo hi := by
  induction n with
  | zero => intro lo hi _; exact le_refl lo
  | succ n ih =>
    intro lo hi h
    have hm1 : lo ≤ (lo + hi) / 2 := by linarith
    have hm2 : (lo + hi) / 2 ≤ hi := by linarith
    simp only [capSearchGo]
    by_cases h1 : accModel ((lo + hi) / 2) r ≤ g
    · rw [if_pos h1, if_pos (le_trans h1 hg)]
      exact ih _ _ hm2
    · rw [if_neg h1]
      by_cases h2 : accModel ((lo + hi) / 2) r ≤ g'
      · rw [if_pos h2]
        exact le_trans (capSearchGo_between g r n lo _ hm1).2
          (capSearchGo_between g' r n _ hi hm2).1
      · rw [if_neg h2]
        exact ih _ _ hm1

/-- Capping is monotone in the score goal. -/
theorem capField_mono_goal (r : ℚ) (hr : 0 ≤ r) {g g' : ℚ} (hg : g ≤ g') :
    capField g r ≤ capField g' r :=
  capSearchGo_mono_goal r hg capIterations 0 r hr

/-- The response model is scale-invariant: rescaling the bracket and the raw
difficulty by a positive factor rescales the search result by that factor. -/
theorem capSearchGo_smul (g r : ℚ) (hr : 0 < r) (n : Nat) :
    ∀ lo hi : ℚ, capSearchGo g r n (r * lo) (r * hi) = r * capSearchGo g 1 n lo hi := by
  induction n with
  | zero => intro lo hi; rfl
  | succ n ih =>
    intro lo hi
    have hacc : ∀ m : ℚ, accModel (r * m) r = accModel m 1 := by
      intro m
      simp only [accModel, if_neg hr.ne', if_neg (one_ne_zero (α := ℚ))]
      rw [mul_div_cancel_left₀ m hr.ne', div_one]
    have hm : (r * lo + r * hi) / 2 = r * ((lo + hi) / 2) := by ring
    simp only [capSearchGo, hm, hacc]
    by_cases hc : accModel ((lo + hi) / 2) 1 ≤ g
    · rw [if_pos hc, if_pos hc]
      exact ih _ _
    · rw [if_neg hc, if_neg hc]
      exact ih _ _

/-- Every capped field is the raw field scaled by one fixed goal-dependent
factor: the search on `[0, r]` is the unit-bracket search scaled by `r`. -/
theorem capField_eq_theta (g r : ℚ) (hr : 0 ≤ r) :
    capField g r = r * capSearchGo g 1 capIterations 0 1 := by
  rcases hr.eq_or_lt with h | h
  · rw [← h, capField_zero, zero_mul]
  · have h2 : capSearchGo g r capIterations (r * 0) (r * 1) =
        r * capSearchGo g 1 capIterations 0 1 := capSearchGo_smul g r h capIterations 0 1
    rw [mul_zero, mul_one] at h2
    exact h2

/-- Bisection convergence: the bracket keeps the exact solution `g·r` of the
response model, and its width halves each iteration. -/
theorem capSearchGo_approx (g r : ℚ) (hr : 0 < r) (n : Nat) :
    ∀ lo hi : ℚ, lo ≤ g * r → g * r ≤ hi →
      capSearchGo g r n lo hi ≤ g * r ∧
        g * r - capSearchGo g r n lo hi ≤ (hi - lo) / 2 ^ n := by
  induction n with
  | zero =>
    intro lo hi h1 h2
    simp only [capSearchGo, pow_zero, div_one]
    exact ⟨h1, by linarith⟩
  | succ n ih =>
    intro lo hi h1 h2
    have hcond : (accModel ((lo + hi) / 2) r ≤ g) ↔ ((lo + hi) / 2 ≤ g * r) := by
      simp only [accModel, if_neg hr.ne']
      exact div_le_iff₀ hr
    simp only [capSearchGo]
    by_cases hc : (lo + hi) / 2 ≤ g * r
    · rw [if_pos (hcond.mpr hc)]
      have hrec := ih ((lo + hi) / 2) hi hc h2
      refine ⟨hrec.1, le_trans hrec.2 (le_of_eq ?_)⟩
      rw [pow_succ]
      ring
    · rw [if_neg (fun hx => hc (hcond.mp hx))]
      have hrec := ih lo ((lo + hi) / 2) h1 (lt_of_not_le hc).le
      refine ⟨hrec.1, le_trans hrec.2 (le_of_eq ?_)⟩
      rw [pow_succ]
      ring

/-- After the fixed iteration budget the capped value is within
`r / 2 ^ capIterations` below the exact solution `g·r`. -/
theorem capField_approx (g r : ℚ) (hr : 0 ≤ r) (hg0 : 0 ≤ g) (hg1 : g ≤ 1) :
    capField g r ≤ g * r ∧ g * r - capField g r ≤ r / 2 ^ capIterations := by
  rcases hr.eq_or_lt with h | h
  · rw [← h, capField_zero]
    norm_num
  · have h1 : (0 : ℚ) ≤ g * r := mul_nonneg hg0 h.le
    have h2 : g * r ≤ r := by nlinarith
    have hrec := capSearchGo_approx g r h capIterations 0 r h1 h2
    simpa using hrec

/-! ### Degenerate inputs -/

/-- Fewer than two timestamps produce no intervals. -/
theorem intervalsOf_short {L : List ℚ} (h : L.length ≤ 1) : intervalsOf L = [] := by
  cases L with
  | nil => rfl
  | cons a t =>
    cases t with
    | nil => rfl
    | cons b u => simp at h

theorem flowScore_short {L : List ℚ} (h : L.length ≤ 1) : flowScore L = 0 := by
  simp [flowScore, intervalsOf_short h]

theorem timesWhere_length_le (rate : ℚ) (p : NoteInfo → Bool) (rows : List NoteInfo) :
    (timesWhere rate p rows).length ≤ rows.length := by
  simp only [timesWhere, List.length_map]
  exact List.length_filter_le p rows

/-- A chart with at most one row has no recognizable pattern: the raw
profile is all-zero. -/
theorem rawProfile_short {rows : List NoteInfo} (h : rows.length ≤ 1)
    (keycount : Nat) (rate : ℚ) : rawProfile rows keycount rate = zeroSsr := by
  have hflow : ∀ p : NoteInfo → Bool, flowScore (timesWhere rate p rows) = 0 := fun p =>
    flowScore_short (le_trans (timesWhere_length_le rate p rows) h)
  have hsum0 : ∀ f : Nat → ℚ, (∀ k, f k = 0) → ((List.range keycount).map f).sum = 0 := by
    intro f hf
    refine List.sum_eq_zero ?_
    intro x hx
    obtain ⟨k, _, rfl⟩ := List.mem_map.mp hx
    exact hf k
  have hte : technicalScore rate keycount rows = 0 := by
    unfold technicalScore
    rw [intervalsOf_short (le_trans (timesWhere_length_le _ _ _) h)]
    rfl
  have hja : jackspeedScore rate keycount rows = 0 := hsum0 _ (fun k => hflow _)
  have hcj : chordjackScore rate keycount rows = 0 := hsum0 _ (fun k => hflow _)
  simp only [rawProfile, streamScore, jumpstreamScore, handstreamScore, staminaScore]
  rw [hflow, hflow, hflow, hflow, hja, hcj, hte]
  simp [aggregateOverall, zeroSsr]

/-- With keycount zero no column is valid, so no row sounds. -/
theorem notesInRow_zero (row : NoteInfo) : notesInRow 0 row = 0 := rfl

/-- A keycount of zero silences every recognizer: the raw profile is
all-zero. -/
theorem rawProfile_keycount_zero (rows : List NoteInfo) (rate : ℚ) :
    rawProfile rows 0 rate = zeroSsr := by
  have hnil : ∀ p : NoteInfo → Bool, (∀ row, p row = false) → timesWhere rate p rows = [] := by
    intro p hp
    unfold timesWhere
    rw [List.filter_eq_nil_iff.mpr (fun a _ => by simp [hp a])]
    rfl
  have hte : technicalScore rate 0 rows = 0 := by
    unfold technicalScore
    rw [hnil _ (fun row => by simp [notesInRow_zero])]
    rfl
  simp only [rawProfile, streamScore, jumpstreamScore, handstreamScore, staminaScore,
    jackspeedScore, chordjackScore]
  rw [hnil _ (fun row => by simp [notesInRow_zero]), hnil _ (fun row => by simp [notesInRow_zero]),
    hnil _ (fun row => by simp [notesInRow_zero]), hnil _ (fun row => by simp [notesInRow_zero]),
    hte]
  simp [aggregateOverall, zeroSsr, flowScore, intervalsOf]

/-- Capping the all-zero profile gives it back. -/
theorem capProfile_zero (g : ℚ) : capProfile g zeroSsr = zeroSsr := by
  simp [capProfile, zeroSsr, capField_zero]

/-- If the raw pipeline result at the clamped rate is all-zero, so is the
returned profile in either mode. -/
theorem profileAt_zero_of_raw {rows : List NoteInfo} {rate goal : ℚ} {keycount : Nat}
    {cap : Int} (h : rawProfile rows keycount (clampRate rate) = zeroSsr) :
    profileAt rows rate goal keycount cap = zeroSsr := by
  simp only [profileAt, h]
  split
  · rfl
  · exact capProfile_zero goal

/-- A rate below the domain floor clamps to 0.7. -/
theorem clampRate_low {rate : ℚ} (h : rate < 7 / 10) : clampRate rate = 7 / 10 := by
  unfold clampRate
  rw [min_eq_right (le_trans h.le (by norm_num)), max_eq_left h.le]

/-- A rate above the domain ceiling clamps to 2.0. -/
theorem clampRate_high {rate : ℚ} (h : 2 < rate) : clampRate rate = 2 := by
  unfold clampRate
  rw [min_eq_left h.le, max_eq_right (by norm_num)]

/-! ### Profile-level consequences -/

/-- In capped mode the pipeline caps the raw profile. -/
theorem profileAt_capped (rows : List NoteInfo) (rate goal : ℚ) (keycount : Nat) :
    profileAt rows rate goal keycount 1 =
      capProfile goal (rawProfile rows keycount (clampRate rate)) := by
  simp [profileAt]

/-- In uncapped mode the pipeline returns the raw profile. -/
theorem profileAt_uncapped (rows : List NoteInfo) (rate goal : ℚ) (keycount : Nat) :
    profileAt rows rate goal keycount 0 = rawProfile rows keycount (clampRate rate) := by
  simp [profileAt]

/-- Every profile the pipeline can return has only non-negative fields. -/
theorem profileAt_nonneg (rows : List NoteInfo) (rate goal : ℚ) (keycount : Nat)
    (cap : Int) : ssrNonneg (profileAt rows rate goal keycount cap) := by
  have hraw := rawProfile_nonneg rows keycount (clampRate rate)
  unfold profileAt
  split
  · exact hraw
  · obtain ⟨h1, h2, h3, h4, h5, h6, h7, h8⟩ := hraw
    exact ⟨(capField_between goal _ h1).1, (capField_between goal _ h2).1,
      (capField_between goal _ h3).1, (capField_between goal _ h4).1,
      (capField_between goal _ h5).1, (capField_between goal _ h6).1,
      (capField_between goal _ h7).1, (capField_between goal _ h8).1⟩

/-- Capping never exceeds the raw profile, field by field. -/
theorem capProfile_le (g : ℚ) (p : Ssr) (hp : ssrNonneg p) : ssrLe (capProfile g p) p := by
  obtain ⟨h1, h2, h3, h4, h5, h6, h7, h8⟩ := hp
  exact ⟨(capField_between g _ h1).2, (capField_between g _ h2).2,
    (capField_between g _ h3).2, (capField_between g _ h4).2,
    (capField_between g _ h5).2, (capField_between g _ h6).2,
    (capField_between g _ h7).2, (capField_between g _ h8).2⟩

/-- Capping is monotone in the score goal, field by field. -/
theorem capProfile_mono (p : Ssr) (hp : ssrNonneg p) {g g' : ℚ} (h : g ≤ g') :
    ssrLe (capProfile g p) (capProfile g' p) := by
  obtain ⟨h1, h2, h3, h4, h5, h6, h7, h8⟩ := hp
  exact ⟨capField_mono_goal _ h1 h, capField_mono_goal _ h2 h, capField_mono_goal _ h3 h,
    capField_mono_goal _ h4 h, capField_mono_goal _ h5 h, capField_mono_goal _ h6 h,
    capField_mono_goal _ h7 h, capField_mono_goal _ h8 h⟩

/-- The i-th sweep entry of `calc_all_rates` is the pipeline result at rate
`0.7 + 0.1·i`. -/
theorem calc_all_rates_getElem (ctx : CalcHandle) (rows : List NoteInfo) (keycount : Nat)
    (cap : Int) {i : Nat} (hi : i < 14) :
    (calc_all_rates ctx rows keycount cap).1.msds[i]? =
      some (profileAt rows (7 / 10 + (i : ℚ) / 10) defaultScoreGoal keycount cap) := by
  rw [calc_all_rates_msds]
  simp [sweepRates, List.getElem?_range hi, rateOfIndex]

/-- The sweep has exactly 14 entries. -/
theorem calc_all_rates_length (ctx : CalcHandle) (rows : List NoteInfo) (keycount : Nat)
    (cap : Int) : (calc_all_rates ctx rows keycount cap).1.msds.length = 14 := by
  rw [calc_all_rates_msds]
  simp [sweepRates]

/-- A maximum of two non-negative values vanishes exactly when both do. -/
theorem max_eq_zero_of_nonneg {a b : ℚ} (ha : 0 ≤ a) (hb : 0 ≤ b) :
    max a b = 0 ↔ a = 0 ∧ b = 0 := by
  constructor
  · intro h
    exact ⟨le_antisymm (h ▸ le_max_left a b) ha, le_antisymm (h ▸ le_max_right a b) hb⟩
  · rintro ⟨rfl, rfl⟩
    exact max_self 0

/-- The aggregator vanishes exactly when all seven non-negative inputs do. -/
theorem aggregateOverall_eq_zero {a₁ a₂ a₃ a₄ a₅ a₆ a₇ : ℚ}
    (h1 : 0 ≤ a₁) (h2 : 0 ≤ a₂) (h3 : 0 ≤ a₃) (h4 : 0 ≤ a₄) (h5 : 0 ≤ a₅)
    (h6 : 0 ≤ a₆) (h7 : 0 ≤ a₇) :
    aggregateOverall a₁ a₂ a₃ a₄ a₅ a₆ a₇ = 0 ↔
      a₁ = 0 ∧ a₂ = 0 ∧ a₃ = 0 ∧ a₄ = 0 ∧ a₅ = 0 ∧ a₆ = 0 ∧ a₇ = 0 := by
  unfold aggregateOverall
  rw [max_eq_zero_of_nonneg h1 (le_max_of_le_left h2),
    max_eq_zero_of_nonneg h2 (le_max_of_le_left h3),
    max_eq_zero_of_nonneg h3 (le_max_of_le_left h4),
    max_eq_zero_of_nonneg h4 (le_max_of_le_left h5),
    max_eq_zero_of_nonneg h5 (le_max_of_le_left h6),
    max_eq_zero_of_nonneg h6 h7]

/-- The aggregator is non-decreasing in every argument. -/
theorem aggregateOverall_mono {a₁ a₂ a₃ a₄ a₅ a₆ a₇ b₁ b₂ b₃ b₄ b₅ b₆ b₇ : ℚ}
    (h1 : a₁ ≤ b₁) (h2 : a₂ ≤ b₂) (h3 : a₃ ≤ b₃) (h4 : a₄ ≤ b₄) (h5 : a₅ ≤ b₅)
    (h6 : a₆ ≤ b₆) (h7 : a₇ ≤ b₇) :
    aggregateOverall a₁ a₂ a₃ a₄ a₅ a₆ a₇ ≤ aggregateOverall b₁ b₂ b₃ b₄ b₅ b₆ b₇ :=
  max_le_max h1 (max_le_max h2 (max_le_max h3 (max_le_max h4
    (max_le_max h5 (max_le_max h6 h7)))))

/-- The aggregator commutes with scaling by a non-negative factor. -/
theorem aggregateOverall_mul {c : ℚ} (hc : 0 ≤ c) (a₁ a₂ a₃ a₄ a₅ a₆ a₇ : ℚ) :
    aggregateOverall (a₁ * c) (a₂ * c) (a₃ * c) (a₄ * c) (a₅ * c) (a₆ * c) (a₇ * c) =
      aggregateOverall a₁ a₂ a₃ a₄ a₅ a₆ a₇ * c := by
  unfold aggregateOverall
  rw [max_mul_of_nonneg _ _ hc, max_mul_of_nonneg _ _ hc, max_mul_of_nonneg _ _ hc,
    max_mul_of_nonneg _ _ hc, max_mul_of_nonneg _ _ hc, max_mul_of_nonneg _ _ hc]

/-- Capping preserves the aggregator relationship between `overall` and the
seven skillset fields. -/
theorem capProfile_overall (g : ℚ) (p : Ssr) (hp : ssrNonneg p)
    (hagg : p.overall = aggregateOverall p.stream p.jumpstream p.handstream
      p.stamina p.jackspeed p.chordjack p.technical) :
    (capProfile g p).overall = aggregateOverall (capProfile g p).stream
      (capProfile g p).jumpstream (capProfile g p).handstream (capProfile g p).stamina
      (capProfile g p).jackspeed (capProfile g p).chordjack (capProfile g p).technical := by
  obtain ⟨h1, h2, h3, h4, h5, h6, h7, h8⟩ := hp
  have hθ : 0 ≤ capSearchGo g 1 capIterations 0 1 :=
    (capSearchGo_between g 1 capIterations 0 1 (by norm_num)).1
  show capField g p.overall = aggregateOverall (capField g p.stream) (capField g p.jumpstream)
    (capField g p.handstream) (capField g p.stamina) (capField g p.jackspeed)
    (capField g p.chordjack) (capField g p.technical)
  rw [capField_eq_theta g _ h1, capField_eq_theta g _ h2, capField_eq_theta g _ h3,
    capField_eq_theta g _ h4, capField_eq_theta g _ h5, capField_eq_theta g _ h6,
    capField_eq_theta g _ h7, capField_eq_theta g _ h8, hagg]
  rw [aggregateOverall_mul hθ]

/-- In every returned profile `overall` is the aggregator applied to the
seven skillset fields. -/
theorem profileAt_overall (rows : List NoteInfo) (rate goal : ℚ) (keycount : Nat)
    (cap : Int) :
    (profileAt rows rate goal keycount cap).overall =
      aggregateOverall (profileAt rows rate goal keycount cap).stream
        (profileAt rows rate goal keycount cap).jumpstream
        (profileAt rows rate goal keycount cap).handstream
        (profileAt rows rate goal keycount cap).stamina
        (profileAt rows rate goal keycount cap).jackspeed
        (profileAt rows rate goal keycount cap).chordjack
        (profileAt rows rate goal keycount cap).technical := by
  unfold profileAt
  split
  · rfl
  · exact capProfile_overall goal _ (rawProfile_nonneg rows keycount (clampRate rate)) rfl

/-- Two rates with the same clamped value produce the same profile. -/
theorem profileAt_clamp_congr {rate rate' : ℚ} (h : clampRate rate = clampRate rate')
    (rows : List NoteInfo) (goal : ℚ) (keycount : Nat) (cap : Int) :
    profileAt rows rate goal keycount cap = profileAt rows rate' goal keycount cap := by
  unfold profileAt
  rw [h]

/-! ### Claims -/

/-- Claim C1: for every context, note sequence, keycount and mode,
`calc_all_rates` returns a sweep of exactly 14 skillset profiles in
ascending-rate order, where the i-th entry (0 ≤ i < 14) is the profile
computed at rate 0.7 + 0.1·i, covering 0.7 through 2.0 inclusive. -/
theorem calc_all_rates_fourteen_ascending (ctx : CalcHandle) (rows : List NoteInfo)
    (keycount : Nat) (cap : Int) :
    (calc_all_rates ctx rows keycount cap).1.msds.length = 14 ∧
    (∀ i : Nat, i < 14 →
      (calc_all_rates ctx rows keycount cap).1.msds[i]? =
        some (profileAt rows (7 / 10 + (i : ℚ) / 10) defaultScoreGoal keycount cap)) ∧
    (∀ i j : Nat, i < j → rateOfIndex i < rateOfIndex j) := by
  refine ⟨calc_all_rates_length ctx rows keycount cap, ?_, ?_⟩
  · intro i hi
    exact calc_all_rates_getElem ctx rows keycount cap hi
  · intro i j hij
    unfold rateOfIndex
    have hq : (i : ℚ) < j := by exact_mod_cast hij
    linarith

/-- Claim C1 witness: concrete instance at a fresh context and the empty
chart; the first entry sits at rate 0.7 and rates ascend. -/
theorem calc_all_rates_fourteen_ascending_witness :
    (calc_all_rates create_calc [] 4 0).1.msds.length = 14 ∧
    (calc_all_rates create_calc [] 4 0).1.msds[0]? =
      some (profileAt [] (7 / 10 + ((0 : Nat) : ℚ) / 10) defaultScoreGoal 4 0) ∧
    rateOfIndex 0 < rateOfIndex 1 := by
  obtain ⟨h1, h2, h3⟩ := calc_all_rates_fourteen_ascending create_calc [] 4 0
  exact ⟨h1, h2 0 (by norm_num), h3 0 1 (by norm_num)⟩

/-- Claim C2: every field of every profile returned by `calc_at_rate` or
`calc_all_rates` is non-negative (and finite: the model computes in ℚ, where
every value is finite). -/
theorem calc_profiles_nonneg (ctx : CalcHandle) (rows : List NoteInfo) (rate goal : ℚ)
    (keycount : Nat) (cap : Int) :
    ssrNonneg (calc_at_rate ctx rows rate goal keycount cap).1 ∧
    ∀ p ∈ (calc_all_rates ctx rows keycount cap).1.msds, ssrNonneg p := by
  constructor
  · rw [calc_at_rate_fst]
    exact profileAt_nonneg rows rate goal keycount cap
  · intro p hp
    rw [calc_all_rates_msds] at hp
    obtain ⟨r, _, rfl⟩ := List.mem_map.mp hp
    exact profileAt_nonneg rows r defaultScoreGoal keycount cap

/-- Claim C2 witness: concrete instance on a two-row chart, including a
concrete member of the sweep. -/
theorem calc_profiles_nonneg_witness :
    ssrNonneg (calc_at_rate create_calc [⟨1, 0⟩, ⟨2, 1⟩] 1 (93 / 100) 4 1).1 ∧
    (profileAt [⟨1, 0⟩, ⟨2, 1⟩] (7 / 10) defaultScoreGoal 4 0 ∈
      (calc_all_rates create_calc [⟨1, 0⟩, ⟨2, 1⟩] 4 0).1.msds ∧
    ssrNonneg (profileAt [⟨1, 0⟩, ⟨2, 1⟩] (7 / 10) defaultScoreGoal 4 0)) := by
  have hmem : profileAt [⟨1, 0⟩, ⟨2, 1⟩] (7 / 10) defaultScoreGoal 4 0 ∈
      (calc_all_rates create_calc [⟨1, 0⟩, ⟨2, 1⟩] 4 0).1.msds := by
    rw [calc_all_rates_msds]
    exact List.mem_map.mpr ⟨7 / 10, by simp [sweepRates, rateOfIndex], rfl⟩
  have h := calc_profiles_nonneg create_calc [⟨1, 0⟩, ⟨2, 1⟩] 1 (93 / 100) 4 1
  have h0 := calc_profiles_nonneg create_calc [⟨1, 0⟩, ⟨2, 1⟩] 1 (93 / 100) 4 0
  exact ⟨h.1, hmem, h0.2 _ hmem⟩

/-- Claim C3: for every chart, keycount and mode, the i-th entry of the
sweep equals the profile `calc_at_rate` returns at rate 0.7 + 0.1·i with the
same mode (and the sweep's default score goal), whatever the two contexts'
states; the model computes in ℚ, so the equality is exact. -/
theorem calc_sweep_entry_matches_single (ctx ctx' : CalcHandle) (rows : List NoteInfo)
    (keycount : Nat) (cap : Int) (i : Nat) (hi : i < 14) :
    (calc_all_rates ctx rows keycount cap).1.msds[i]? =
      some ((calc_at_rate ctx' rows (7 / 10 + (i : ℚ) / 10) defaultScoreGoal keycount cap).1) := by
  rw [calc_at_rate_fst]
  exact calc_all_rates_getElem ctx rows keycount cap hi

/-- Claim C3 witness: entry 3 of the sweep on a concrete chart equals the
single-rate call at rate 1.0, from a fresh and a warm context. -/
theorem calc_sweep_entry_matches_single_witness :
    (calc_all_rates create_calc [⟨1, 0⟩, ⟨2, 1⟩] 4 1).1.msds[3]? =
      some ((calc_at_rate ⟨[⟨15, 5⟩]⟩ [⟨1, 0⟩, ⟨2, 1⟩] (7 / 10 + ((3 : Nat) : ℚ) / 10)
        defaultScoreGoal 4 1).1) :=
  calc_sweep_entry_matches_single create_calc ⟨[⟨15, 5⟩]⟩ [⟨1, 0⟩, ⟨2, 1⟩] 4 1 3 (by norm_num)

/-- Claim C4: identical inputs produce identical outputs regardless of the
context's prior state — scratch reuse never leaks stale data from an earlier
chart into a result. -/
theorem calc_context_state_independent (ctx₁ ctx₂ : CalcHandle) (rows : List NoteInfo)
    (rate goal : ℚ) (keycount : Nat) (cap : Int) :
    (calc_at_rate ctx₁ rows rate goal keycount cap).1 =
      (calc_at_rate ctx₂ rows rate goal keycount cap).1 ∧
    (calc_all_rates ctx₁ rows keycount cap).1 = (calc_all_rates ctx₂ rows keycount cap).1 := by
  constructor
  · rw [calc_at_rate_fst, calc_at_rate_fst]
  · have h := (calc_all_rates_msds ctx₁ rows keycount cap).trans
      (calc_all_rates_msds ctx₂ rows keycount cap).symm
    exact congrArg MsdForAllRates.mk h

/-- Claim C5: degenerate inputs never abort and give defined degenerate
results: the empty chart is all-zero at every rate (single call and whole
sweep), a single-note chart is all-zero, keycount zero is all-zero, and a
rate outside [0.7, 2.0] behaves as the boundary-clamped rate. -/
theorem calc_degenerate_inputs (ctx : CalcHandle) (rows : List NoteInfo) (row : NoteInfo)
    (rate goal : ℚ) (keycount : Nat) (cap : Int) :
    (calc_at_rate ctx [] rate goal keycount cap).1 = zeroSsr ∧
    (∀ p ∈ (calc_all_rates ctx [] keycount cap).1.msds, p = zeroSsr) ∧
    (calc_at_rate ctx [row] rate goal keycount cap).1 = zeroSsr ∧
    (calc_at_rate ctx rows rate goal 0 cap).1 = zeroSsr ∧
    (rate < 7 / 10 →
      (calc_at_rate ctx rows rate goal keycount cap).1 =
        (calc_at_rate ctx rows (7 / 10) goal keycount cap).1) ∧
    (2 < rate →
      (calc_at_rate ctx rows rate goal keycount cap).1 =
        (calc_at_rate ctx rows 2 goal keycount cap).1) := by
  refine ⟨?_, ?_, ?_, ?_, ?_, ?_⟩
  · rw [calc_at_rate_fst]
    exact profileAt_zero_of_raw (rawProfile_short (by simp) keycount _)
  · intro p hp
    rw [calc_all_rates_msds] at hp
    obtain ⟨r, _, rfl⟩ := List.mem_map.mp hp
    exact profileAt_zero_of_raw (rawProfile_short (by simp) keycount _)
  · rw [calc_at_rate_fst]
    exact profileAt_zero_of_raw (rawProfile_short (by simp) keycount _)
  · rw [calc_at_rate_fst]
    exact profileAt_zero_of_raw (rawProfile_keycount_zero rows _)
  · intro h
    rw [calc_at_rate_fst, calc_at_rate_fst]
    refine profileAt_clamp_congr ?_ rows goal keycount cap
    rw [clampRate_low h]
    norm_num [clampRate, min_def, max_def]
  · intro h
    rw [calc_at_rate_fst, calc_at_rate_fst]
    refine profileAt_clamp_congr ?_ rows goal keycount cap
    rw [clampRate_high h]
    norm_num [clampRate, min_def, max_def]

/-- Claim C5 witness: concrete degenerate inputs, including a concrete
member of the empty-chart sweep and two out-of-domain rates. -/
theorem calc_degenerate_inputs_witness :
    (calc_at_rate create_calc [] (1 / 2) (93 / 100) 4 0).1 = zeroSsr ∧
    (zeroSsr ∈ (calc_all_rates create_calc [] 4 0).1.msds ∧ zeroSsr = zeroSsr) ∧
    (calc_at_rate create_calc [⟨1, 0⟩] (1 / 2) (93 / 100) 4 0).1 = zeroSsr ∧
    (calc_at_rate create_calc [⟨1, 0⟩, ⟨2, 1⟩] (1 / 2) (93 / 100) 0 0).1 = zeroSsr ∧
    ((1 : ℚ) / 2 < 7 / 10 ∧
      (calc_at_rate create_calc [⟨1, 0⟩, ⟨2, 1⟩] (1 / 2) (93 / 100) 4 0).1 =
        (calc_at_rate create_calc [⟨1, 0⟩, ⟨2, 1⟩] (7 / 10) (93 / 100) 4 0).1) ∧
    ((2 : ℚ) < 3 ∧
      (calc_at_rate create_calc [⟨1, 0⟩, ⟨2, 1⟩] 3 (93 / 100) 4 0).1 =
        (calc_at_rate create_calc [⟨1, 0⟩, ⟨2, 1⟩] 2 (93 / 100) 4 0).1) := by
  obtain ⟨a, b, c, d, e, _⟩ :=
    calc_degenerate_inputs create_calc [⟨1, 0⟩, ⟨2, 1⟩] ⟨1, 0⟩ (1 / 2) (93 / 100) 4 0
  obtain ⟨_, _, _, _, _, f⟩ :=
    calc_degenerate_inputs create_calc [⟨1, 0⟩, ⟨2, 1⟩] ⟨1, 0⟩ 3 (93 / 100) 4 0
  have hmem : zeroSsr ∈ (calc_all_rates create_calc [] 4 0).1.msds := by
    rw [calc_all_rates_msds]
    have h0 : rateOfIndex 0 ∈ sweepRates :=
      List.mem_map.mpr ⟨0, List.mem_range.mpr (by norm_num), rfl⟩
    refine List.mem_map.mpr ⟨rateOfIndex 0, h0, ?_⟩
    exact profileAt_zero_of_raw (rawProfile_short (by simp) 4 _)
  exact ⟨a, ⟨hmem, b zeroSsr hmem⟩, c, d, ⟨by norm_num, e (by norm_num)⟩,
    ⟨by norm_num, f (by norm_num)⟩⟩

/-- Claim C6: with a score goal in (0, 1], every field of the capped (SSR)
profile is ≤ the corresponding field of the uncapped (MSD) profile at the
same chart and rate, and capped fields are non-decreasing in the score
goal. -/
theorem capped_profile_bounds (ctx₁ ctx₂ : CalcHandle) (rows : List NoteInfo)
    (rate g g' : ℚ) (keycount : Nat) (hg0 : 0 < g) (hg1 : g ≤ 1) (hgg : g ≤ g')
    (hg1' : g' ≤ 1) :
    ssrLe (calc_at_rate ctx₁ rows rate g keycount 1).1
      (calc_at_rate ctx₂ rows rate g keycount 0).1 ∧
    ssrLe (calc_at_rate ctx₁ rows rate g keycount 1).1
      (calc_at_rate ctx₁ rows rate g' keycount 1).1 := by
  simp only [calc_at_rate_fst, profileAt_capped, profileAt_uncapped]
  exact ⟨capProfile_le g _ (rawProfile_nonneg rows keycount (clampRate rate)),
    capProfile_mono _ (rawProfile_nonneg rows keycount (clampRate rate)) hgg⟩

/-- Claim C6 witness: concrete instance on a two-row chart with goals 1/2
and 3/4, from a fresh and a warm context. -/
theorem capped_profile_bounds_witness :
    (0 : ℚ) < 1 / 2 ∧ (1 : ℚ) / 2 ≤ 1 ∧ (1 : ℚ) / 2 ≤ 3 / 4 ∧ (3 : ℚ) / 4 ≤ 1 ∧
    (ssrLe (calc_at_rate create_calc [⟨1, 0⟩, ⟨2, 1⟩] 1 (1 / 2) 4 1).1
        (calc_at_rate ⟨[⟨15, 5⟩]⟩ [⟨1, 0⟩, ⟨2, 1⟩] 1 (1 / 2) 4 0).1 ∧
      ssrLe (calc_at_rate create_calc [⟨1, 0⟩, ⟨2, 1⟩] 1 (1 / 2) 4 1).1
        (calc_at_rate create_calc [⟨1, 0⟩, ⟨2, 1⟩] 1 (3 / 4) 4 1).1) :=
  ⟨by norm_num, by norm_num, by norm_num, by norm_num,
    capped_profile_bounds create_calc ⟨[⟨15, 5⟩]⟩ [⟨1, 0⟩, ⟨2, 1⟩] 1 (1 / 2) (3 / 4) 4
      (by norm_num) (by norm_num) (by norm_num) (by norm_num)⟩

/-- Claim C7: in every returned profile, `overall` is the fixed aggregator
of the seven skillset scalars (never an independent value); the aggregator
is non-decreasing in each scalar, and `overall` vanishes exactly when all
seven skillset fields vanish. -/
theorem overall_is_aggregate (ctx : CalcHandle) (rows : List NoteInfo) (rate goal : ℚ)
    (keycount : Nat) (cap : Int) :
    ((calc_at_rate ctx rows rate goal keycount cap).1.overall =
      aggregateOverall (calc_at_rate ctx rows rate goal keycount cap).1.stream
        (calc_at_rate ctx rows rate goal keycount cap).1.jumpstream
        (calc_at_rate ctx rows rate goal keycount cap).1.handstream
        (calc_at_rate ctx rows rate goal keycount cap).1.stamina
        (calc_at_rate ctx rows rate goal keycount cap).1.jackspeed
        (calc_at_rate ctx rows rate goal keycount cap).1.chordjack
        (calc_at_rate ctx rows rate goal keycount cap).1.technical) ∧
    ((calc_at_rate ctx rows rate goal keycount cap).1.overall = 0 ↔
      ((calc_at_rate ctx rows rate goal keycount cap).1.stream = 0 ∧
       (calc_at_rate ctx rows rate goal keycount cap).1.jumpstream = 0 ∧
       (calc_at_rate ctx rows rate goal keycount cap).1.handstream = 0 ∧
       (calc_at_rate ctx rows rate goal keycount cap).1.stamina = 0 ∧
       (calc_at_rate ctx rows rate goal keycount cap).1.jackspeed = 0 ∧
       (calc_at_rate ctx rows rate goal keycount cap).1.chordjack = 0 ∧
       (calc_at_rate ctx rows rate goal keycount cap).1.technical = 0)) ∧
    (∀ a₁ a₂ a₃ a₄ a₅ a₆ a₇ b₁ b₂ b₃ b₄ b₅ b₆ b₇ : ℚ, a₁ ≤ b₁ → a₂ ≤ b₂ → a₃ ≤ b₃ →
      a₄ ≤ b₄ → a₅ ≤ b₅ → a₆ ≤ b₆ → a₇ ≤ b₇ →
      aggregateOverall a₁ a₂ a₃ a₄ a₅ a₆ a₇ ≤ aggregateOverall b₁ b₂ b₃ b₄ b₅ b₆ b₇) := by
  refine ⟨?_, ?_, ?_⟩
  · simp only [calc_at_rate_fst]
    exact profileAt_overall rows rate goal keycount cap
  · simp only [calc_at_rate_fst]
    obtain ⟨h1, h2, h3, h4, h5, h6, h7, h8⟩ := profileAt_nonneg rows rate goal keycount cap
    rw [profileAt_overall rows rate goal keycount cap]
    exact aggregateOverall_eq_zero h2 h3 h4 h5 h6 h7 h8
  · intro a₁ a₂ a₃ a₄ a₅ a₆ a₇ b₁ b₂ b₃ b₄ b₅ b₆ b₇ h1 h2 h3 h4 h5 h6 h7
    exact aggregateOverall_mono h1 h2 h3 h4 h5 h6 h7

/-- Claim C7 witness: concrete instance of all three parts, with the
aggregator monotonicity applied at concrete scalar tuples. -/
theorem overall_is_aggregate_witness :
    ((calc_at_rate create_calc [⟨1, 0⟩, ⟨2, 1⟩] 1 (93 / 100) 4 1).1.overall =
      aggregateOverall (calc_at_rate create_calc [⟨1, 0⟩, ⟨2, 1⟩] 1 (93 / 100) 4 1).1.stream
        (calc_at_rate create_calc [⟨1, 0⟩, ⟨2, 1⟩] 1 (93 / 100) 4 1).1.jumpstream
        (calc_at_rate create_calc [⟨1, 0⟩, ⟨2, 1⟩] 1 (93 / 100) 4 1).1.handstream
        (calc_at_rate create_calc [⟨1, 0⟩, ⟨2, 1⟩] 1 (93 / 100) 4 1).1.stamina
        (calc_at_rate create_calc [⟨1, 0⟩, ⟨2, 1⟩] 1 (93 / 100) 4 1).1.jackspeed
        (calc_at_rate create_calc [⟨1, 0⟩, ⟨2, 1⟩] 1 (93 / 100) 4 1).1.chordjack
        (calc_at_rate create_calc [⟨1, 0⟩, ⟨2, 1⟩] 1 (93 / 100) 4 1).1.technical) ∧
    ((0 : ℚ) ≤ 1 ∧
      aggregateOverall 0 0 0 0 0 0 0 ≤ aggregateOverall 1 1 1 1 1 1 1) := by
  obtain ⟨h1, _, h3⟩ := overall_is_aggregate create_calc [⟨1, 0⟩, ⟨2, 1⟩] 1 (93 / 100) 4 1
  exact ⟨h1, by norm_num,
    h3 0 0 0 0 0 0 0 1 1 1 1 1 1 1 (by norm_num) (by norm_num) (by norm_num) (by norm_num)
      (by norm_num) (by norm_num) (by norm_num)⟩

/-- Claim C8: the legacy aliases are the new entry points with the cap mode
fixed: `calc_msd` is `calc_all_rates` with cap 0 and `calc_ssr` is
`calc_at_rate` with cap 1, on identical remaining arguments. -/
theorem legacy_aliases_match (ctx : CalcHandle) (rows : List NoteInfo) (rate goal : ℚ)
    (keycount : Nat) :
    calc_msd ctx rows keycount = calc_all_rates ctx rows keycount 0 ∧
    calc_ssr ctx rows rate goal keycount = calc_at_rate ctx rows rate goal keycount 1 :=
  ⟨rfl, rfl⟩

/-- Claim C9: the goal-capping search runs a fixed iteration budget
(`capIterations`) for every input, and after exactly that many bisection
steps the capped value has converged: it lies within `r / 2 ^ capIterations`
below the exact solution `g·r` of the response model. -/
theorem cap_search_bounded (r g : ℚ) (hr : 0 ≤ r) (hg0 : 0 < g) (hg1 : g ≤ 1) :
    g * r - r / 2 ^ capIterations ≤ capField g r ∧ capField g r ≤ g * r := by
  have h := capField_approx g r hr hg0.le hg1
  exact ⟨by linarith [h.2], h.1⟩

/-- Claim C9 witness: the search at raw value 1 and goal 1/2 converges to
within 2⁻²⁰ of 1/2. -/
theorem cap_search_bounded_witness :
    (0 : ℚ) ≤ 1 ∧ (0 : ℚ) < 1 / 2 ∧ (1 : ℚ) / 2 ≤ 1 ∧
    ((1 : ℚ) / 2 * 1 - 1 / 2 ^ capIterations ≤ capField (1 / 2) 1 ∧
      capField (1 / 2) 1 ≤ 1 / 2 * 1) :=
  ⟨by norm_num, by norm_num, by norm_num,
    cap_search_bounded 1 (1 / 2) (by norm_num) (by norm_num) (by norm_num)⟩

/-- Claim C10: both entry points hand the caller-supplied note buffer back
unchanged: the notes passed in are the notes after the call. -/
theorem calc_preserves_note_buffer (ctx : CalcHandle) (rows : List NoteInfo)
    (rate goal : ℚ) (keycount : Nat) (cap : Int) :
    (calc_at_rate ctx rows rate goal keycount cap).2.2 = rows ∧
    (calc_all_rates ctx rows keycount cap).2.2 = rows :=
  ⟨rfl, rfl⟩

end MinaCalc
